import Mathlib

/-!
Verification of the barebow archery analysis core against its specification.

Each definition is a shallow embedding of the corresponding Python function
(`src/scoring.py`, `src/park_model.py`, `src/precision.py`, `src/crawls.py`),
with machine floats modelled by exact real/rational arithmetic and numpy /
scipy library calls modelled by their mathematical meaning.
-/

namespace Barebow

/-! ## Target geometry and scoring (`src/scoring.py`) -/

/-- Embedding of `get_ring_score(radius_cm, face_size_cm, x_is_11)` from
`src/scoring.py`.  Generic over an ordered field with a floor so it can be
evaluated on `ℚ` and reasoned about on `ℝ`. -/
def get_ring_score {α : Type*} [LinearOrderedField α] [FloorRing α]
    (radius_cm face_size_cm : α) (x_is_11 : Bool) : ℤ :=
  let ring_width := face_size_cm / 20
  if ring_width ≤ 0 then 0
  else if radius_cm < 0 then 0
  else
    let ring_index : ℤ := ⌈radius_cm / ring_width⌉
    if ring_index ≤ 1 then
      (if x_is_11 = true ∧ radius_cm ≤ ring_width / 2 then 11 else 10)
    else if ring_index ≤ 10 then 11 - ring_index
    else 0

/-- The WA ring-score formula exactly as the specification words it:
ringWidth = D/20, ringIndex = ceil(radius/ringWidth); 10 when ringIndex ≤ 1
(11 when the inner-ring flag is set and radius ≤ ringWidth/2), 11 − ringIndex
when 2 ≤ ringIndex ≤ 10, else 0. -/
def ringScoreSpec {α : Type*} [LinearOrderedField α] [FloorRing α]
    (radius faceDiameter : α) (innerRingAs11 : Bool) : ℤ :=
  let ringWidth := faceDiameter / 20
  let ringIndex : ℤ := ⌈radius / ringWidth⌉
  if ringIndex ≤ 1 then
    (if innerRingAs11 = true ∧ radius ≤ ringWidth / 2 then 11 else 10)
  else if 2 ≤ ringIndex ∧ ringIndex ≤ 10 then 11 - ringIndex
  else 0

/-- Radial distance of an impact point from the target centre, as computed by
the callers of `get_ring_score` (`sqrt(x² + y²)`). -/
noncomputable def shot_radius (x y : ℝ) : ℝ := Real.sqrt (x ^ 2 + y ^ 2)

/-- Mean of a list of reals: embedding of `np.mean` (used for the mean point
of impact in `compute_accuracy_precision_ratio`, `src/precision.py`). -/
noncomputable def npMean (l : List ℝ) : ℝ := l.sum / l.length

/-- C1: for every radius ≥ 0 and face diameter D > 0, `get_ring_score` computes
exactly the specification's WA ring formula (ringWidth = D/20,
ringIndex = ceil(radius/ringWidth), 10 for ringIndex ≤ 1 — 11 with the
inner-ring flag and radius ≤ ringWidth/2 —, 11 − ringIndex for
2 ≤ ringIndex ≤ 10, 0 otherwise). -/
theorem ring_score_matches_spec_formula {α : Type*} [LinearOrderedField α] [FloorRing α]
    (radius D : α) (flag : Bool) (hr : 0 ≤ radius) (hD : 0 < D) :
    get_ring_score radius D flag = ringScoreSpec radius D flag := by
  have hw : 0 < D / 20 := by positivity
  unfold get_ring_score ringScoreSpec
  simp only [if_neg (not_lt.mpr hr), if_neg (not_le.mpr hw)]
  split_ifs with h1 h2 h3 h4 h5 <;> try rfl
  · exact absurd ⟨by omega, h3⟩ h4
  · omega

/-- Witness for C1 at radius 3, face 40, inner-ring flag set. -/
theorem ring_score_matches_spec_formula_witness :
    (0:ℚ) ≤ 3 ∧ (0:ℚ) < 40 ∧
      get_ring_score (3:ℚ) 40 true = ringScoreSpec (3:ℚ) 40 true ∧
      get_ring_score (3:ℚ) 40 true = 9 :=
  ⟨by norm_num, by norm_num,
    ring_score_matches_spec_formula (3:ℚ) 40 true (by norm_num) (by norm_num),
    by
      have h : ⌈(3:ℚ)/2⌉ = 2 := by rw [Int.ceil_eq_iff]; norm_num
      norm_num [get_ring_score, h]⟩

/-- C10: the ring-score function is total at the public interface: any negative
radius scores 0, and any non-positive face diameter scores 0 (no exception is
possible: the embedding is a total function). -/
theorem ring_score_total_on_invalid_inputs {α : Type*} [LinearOrderedField α] [FloorRing α]
    (radius D : α) (flag : Bool) :
    (radius < 0 → get_ring_score radius D flag = 0) ∧
      (D ≤ 0 → get_ring_score radius D flag = 0) := by
  constructor
  · intro h
    unfold get_ring_score
    split_ifs
    all_goals simp_all
  · intro h
    unfold get_ring_score
    rw [if_pos (by linarith)]

/-- Witness for C10: negative radius on a 40 cm face, and a 0 cm face. -/
theorem ring_score_total_on_invalid_inputs_witness :
    get_ring_score (-1 : ℚ) 40 false = 0 ∧ get_ring_score (5 : ℚ) 0 false = 0 :=
  ⟨(ring_score_total_on_invalid_inputs (-1 : ℚ) 40 false).1 (by norm_num),
    (ring_score_total_on_invalid_inputs (5 : ℚ) 0 false).2 (by norm_num)⟩

/-- Any impact with radial distance in [0, 2] on a 40 cm face scores 10
(without the inner-ring flag). -/
lemma ring_score_forty_eq_ten {r : ℝ} (h0 : 0 ≤ r) (h2 : r ≤ 2) :
    get_ring_score r 40 false = 10 := by
  unfold get_ring_score
  have hw : ¬((40:ℝ)/20 ≤ 0) := by norm_num
  rw [if_neg hw, if_neg (not_lt.mpr h0), if_pos]
  · simp
  · show ⌈r / (40/20 : ℝ)⌉ ≤ 1
    rw [Int.ceil_le]
    push_cast
    linarith

lemma sqrt_le_two_of_le_four {s : ℝ} (h : s ≤ 4) : Real.sqrt s ≤ 2 := by
  have : Real.sqrt s ≤ Real.sqrt 4 := Real.sqrt_le_sqrt h
  calc Real.sqrt s ≤ Real.sqrt 4 := this
    _ = 2 := by
        rw [show (4:ℝ) = 2 ^ 2 by norm_num, Real.sqrt_sq (by norm_num : (0:ℝ) ≤ 2)]

/-- C2 counterexample: the fourth example shot (1.2, −0.8) on the 40 cm face
does not score 9 — its radius √2.08 lies inside the 2 cm-wide 10-ring. -/
theorem example_group_fourth_shot_not_nine :
    ¬ get_ring_score (shot_radius 1.2 (-0.8)) 40 false = 9 := by
  have h : get_ring_score (shot_radius 1.2 (-0.8)) 40 false = 10 := by
    apply ring_score_forty_eq_ten (Real.sqrt_nonneg _)
    exact sqrt_le_two_of_le_four (by norm_num)
  rw [h]; decide

/-- C2 (amended): the four example shots (0,0), (0.5,0.3), (−0.3,−0.2),
(1.2,−0.8) on a 40 cm face all score 10 (the fourth is inside the 10-ring,
not the 9-ring), and the mean point of impact is exactly (0.35, −0.175). -/
theorem example_group_scores_and_mpi :
    get_ring_score (shot_radius 0 0) 40 false = 10 ∧
      get_ring_score (shot_radius 0.5 0.3) 40 false = 10 ∧
      get_ring_score (shot_radius (-0.3) (-0.2)) 40 false = 10 ∧
      get_ring_score (shot_radius 1.2 (-0.8)) 40 false = 10 ∧
      npMean [0, 0.5, -0.3, 1.2] = 0.35 ∧
      npMean [0, 0.3, -0.2, -0.8] = -0.175 := by
  refine ⟨?_, ?_, ?_, ?_, ?_, ?_⟩
  · exact ring_score_forty_eq_ten (Real.sqrt_nonneg _)
      (sqrt_le_two_of_le_four (by norm_num))
  · exact ring_score_forty_eq_ten (Real.sqrt_nonneg _)
      (sqrt_le_two_of_le_four (by norm_num))
  · exact ring_score_forty_eq_ten (Real.sqrt_nonneg _)
      (sqrt_le_two_of_le_four (by norm_num))
  · exact ring_score_forty_eq_ten (Real.sqrt_nonneg _)
      (sqrt_le_two_of_le_four (by norm_num))
  · show ([0, 0.5, -0.3, 1.2] : List ℝ).sum / _ = 0.35
    norm_num
  · show ([0, 0.3, -0.2, -0.8] : List ℝ).sum / _ = -0.175
    norm_num

/-! ## Cross-distance projection, the Park model (`src/park_model.py`) -/

/-- Embedding of `get_ring_radii`: outer radius of each WA scoring ring,
`i * ring_width` for `i = 1..10`. -/
noncomputable def get_ring_radii (face_diameter_cm : ℝ) : List ℝ :=
  (List.range 10).map (fun i : ℕ => ((i : ℝ) + 1) * (face_diameter_cm / 20))

/-- Embedding of `calculate_expected_score(sigma_r, face_diameter_cm)`:
expected average arrow score `10 − Σ exp(−rᵢ²/(2σ²))`, with guard
`σ ≤ 0 → 10.0`. -/
noncomputable def calculate_expected_score (sigma_r face_diameter_cm : ℝ) : ℝ :=
  if sigma_r ≤ 0 then 10
  else 10 - ((get_ring_radii face_diameter_cm).map
    (fun r => Real.exp (-(r ^ 2) / (2 * sigma_r ^ 2)))).sum

/-- The bounded binary-search loop of `calculate_sigma_from_score`, with the
iteration count as explicit fuel; fuel 0 corresponds to the final
`return (low + high) / 2`. -/
noncomputable def sigmaSearch (score face_diameter_cm tolerance : ℝ) :
    ℕ → ℝ → ℝ → ℝ
  | 0, low, high => (low + high) / 2
  | n + 1, low, high =>
      let mid := (low + high) / 2
      let predicted := calculate_expected_score mid face_diameter_cm
      if |predicted - score| < tolerance then mid
      else if predicted > score then sigmaSearch score face_diameter_cm tolerance n mid high
      else sigmaSearch score face_diameter_cm tolerance n low mid

/-- Embedding of `calculate_sigma_from_score(score, face_diameter_cm,
tolerance=0.001)`: 0 for score ≥ 10, the 1000 cm sentinel for score ≤ 0,
otherwise 50 iterations of binary search on σ ∈ [0, 200]. -/
noncomputable def calculate_sigma_from_score (score face_diameter_cm : ℝ)
    (tolerance : ℝ := 0.001) : ℝ :=
  if score ≥ 10 then 0
  else if score ≤ 0 then 1000
  else sigmaSearch score face_diameter_cm tolerance 50 0 200

/-- C9: for every face diameter, a score ≥ 10 inverts to σ = 0 exactly, and a
σ ≤ 0 produces an expected score of exactly 10. -/
theorem park_model_boundary_values (score sigma D : ℝ) :
    (10 ≤ score → calculate_sigma_from_score score D = 0) ∧
      (sigma ≤ 0 → calculate_expected_score sigma D = 10) := by
  constructor
  · intro h
    unfold calculate_sigma_from_score
    rw [if_pos (by exact h)]
  · intro h
    unfold calculate_expected_score
    rw [if_pos h]

/-- Witness for C9 at score 10, σ 0, face 40. -/
theorem park_model_boundary_values_witness :
    calculate_sigma_from_score 10 40 = 0 ∧ calculate_expected_score 0 40 = 10 :=
  ⟨(park_model_boundary_values 10 0 40).1 (by norm_num),
    (park_model_boundary_values 10 0 40).2 (by norm_num)⟩

lemma list_range_map_sum (n : ℕ) (f : ℕ → ℝ) :
    ((List.range n).map f).sum = ∑ i ∈ Finset.range n, f i := by
  induction n with
  | zero => simp
  | succ n ih =>
      rw [List.range_succ, List.map_append, List.sum_append,
        Finset.sum_range_succ, ih]
      simp

/-- The expected score for σ > 0, written as a `Finset.range` sum. -/
lemma expected_score_eq_sum (sigma D : ℝ) (h : 0 < sigma) :
    calculate_expected_score sigma D =
      10 - ∑ i ∈ Finset.range 10,
        Real.exp (-((((i : ℝ) + 1) * (D / 20)) ^ 2) / (2 * sigma ^ 2)) := by
  unfold calculate_expected_score get_ring_radii
  rw [if_neg (not_le.mpr h), List.map_map, list_range_map_sum]
  rfl

lemma expected_score_lt_ten {sigma D : ℝ} (hs : 0 < sigma) (hD : 0 < D) :
    calculate_expected_score sigma D < 10 := by
  rw [expected_score_eq_sum sigma D hs]
  have : (0:ℝ) < ∑ i ∈ Finset.range 10,
      Real.exp (-((((i : ℝ) + 1) * (D / 20)) ^ 2) / (2 * sigma ^ 2)) :=
    Finset.sum_pos (fun i _ => Real.exp_pos _) ⟨0, by norm_num⟩
  linarith

lemma expected_score_pos {sigma D : ℝ} (hs : 0 < sigma) (hD : 0 < D) :
    0 < calculate_expected_score sigma D := by
  rw [expected_score_eq_sum sigma D hs]
  have h1 : ∑ i ∈ Finset.range 10,
      Real.exp (-((((i : ℝ) + 1) * (D / 20)) ^ 2) / (2 * sigma ^ 2)) <
      ∑ _i ∈ Finset.range 10, (1:ℝ) := by
    refine Finset.sum_lt_sum_of_nonempty ⟨0, by norm_num⟩ (fun i _ => ?_)
    rw [Real.exp_lt_one_iff]
    have hr : 0 < (((i : ℝ) + 1) * (D / 20)) ^ 2 := by positivity
    have hq : 0 < 2 * sigma ^ 2 := by positivity
    rw [neg_div, neg_lt_zero]
    positivity
  have h2 : ∑ _i ∈ Finset.range 10, (1:ℝ) = 10 := by simp
  linarith

/-- The expected score is strictly decreasing in σ on (0, ∞) for a positive
face diameter. -/
lemma expected_score_strict_anti {a b D : ℝ} (ha : 0 < a) (hab : a < b)
    (hD : 0 < D) :
    calculate_expected_score b D < calculate_expected_score a D := by
  have hb : 0 < b := lt_trans ha hab
  rw [expected_score_eq_sum a D ha, expected_score_eq_sum b D hb]
  have h : ∑ i ∈ Finset.range 10,
      Real.exp (-((((i : ℝ) + 1) * (D / 20)) ^ 2) / (2 * a ^ 2)) <
      ∑ i ∈ Finset.range 10,
      Real.exp (-((((i : ℝ) + 1) * (D / 20)) ^ 2) / (2 * b ^ 2)) := by
    refine Finset.sum_lt_sum_of_nonempty ⟨0, by norm_num⟩ (fun i _ => ?_)
    rw [Real.exp_lt_exp]
    have hi : (0:ℝ) < (i : ℝ) + 1 := by positivity
    have hr : 0 < (((i : ℝ) + 1) * (D / 20)) ^ 2 := by positivity
    rw [neg_div, neg_div, neg_lt_neg_iff]
    apply div_lt_div_of_pos_left hr (by positivity)
    have : a ^ 2 < b ^ 2 := by nlinarith
    linarith
  linarith

lemma expected_score_anti {a b D : ℝ} (ha : 0 < a) (hab : a ≤ b) (hD : 0 < D) :
    calculate_expected_score b D ≤ calculate_expected_score a D := by
  rcases eq_or_lt_of_le hab with h | h
  · rw [h]
  · exact le_of_lt (expected_score_strict_anti ha h hD)

/-- If the predicted score at `mid ≥ 0` exceeds the score of true σ > 0, the
search must move right: `mid < σ`. -/
lemma mid_lt_of_predicted_gt {mid sigma D : ℝ} (hm : 0 ≤ mid) (hs : 0 < sigma)
    (hD : 0 < D)
    (h : calculate_expected_score sigma D < calculate_expected_score mid D) :
    mid < sigma := by
  by_contra hc
  push_neg at hc
  exact absurd (expected_score_anti hs hc hD) (not_le.mpr h)

/-- If the predicted score at `mid` is at most the score of true σ > 0, the
search must move left: `σ ≤ mid`. -/
lemma sigma_le_of_predicted_le {mid sigma D : ℝ} (hs : 0 < sigma) (hD : 0 < D)
    (h : calculate_expected_score mid D ≤ calculate_expected_score sigma D) :
    sigma ≤ mid := by
  by_contra hc
  push_neg at hc
  rcases le_or_lt mid 0 with hm | hm
  · have h10 : calculate_expected_score mid D = 10 := by
      unfold calculate_expected_score; rw [if_pos hm]
    have := expected_score_lt_ten hs hD
    linarith
  · exact absurd (expected_score_strict_anti hm hc hD) (not_lt.mpr h)

/-- Invariant of the binary search: on any bracketing interval it either stops
within the score tolerance or halves the interval around the true σ. -/
lemma sigmaSearch_approx {sigma D tol : ℝ} (hs : 0 < sigma) (hD : 0 < D) :
    ∀ (n : ℕ) (low high : ℝ), 0 ≤ low → low ≤ sigma → sigma ≤ high →
      |calculate_expected_score
          (sigmaSearch (calculate_expected_score sigma D) D tol n low high) D -
        calculate_expected_score sigma D| < tol ∨
      |sigmaSearch (calculate_expected_score sigma D) D tol n low high - sigma|
        ≤ (high - low) / 2 ^ (n + 1) := by
  intro n
  induction n with
  | zero =>
      intro low high _ h1 h2
      right
      have h2pow : ((2:ℝ) ^ (0 + 1)) = 2 := by norm_num
      simp only [sigmaSearch]
      rw [abs_le, h2pow]
      constructor <;> linarith
  | succ n ih =>
      intro low high h0 h1 h2
      simp only [sigmaSearch]
      set mid := (low + high) / 2 with hmid
      have hm0 : 0 ≤ mid := by rw [hmid]; linarith
      split_ifs with htol hgt
      · exact Or.inl htol
      · have hlt : mid < sigma := mid_lt_of_predicted_gt hm0 hs hD hgt
        rcases ih mid high hm0 (le_of_lt hlt) h2 with h | h
        · exact Or.inl h
        · right
          refine h.trans (le_of_eq ?_)
          rw [hmid]; ring
      · have hle : sigma ≤ mid := sigma_le_of_predicted_le hs hD (not_lt.mp hgt)
        rcases ih low mid h0 h1 hle with h | h
        · exact Or.inl h
        · right
          refine h.trans (le_of_eq ?_)
          rw [hmid]; ring

/-- C3 (amended): for every σ ∈ (0, 50) and face diameter D > 0, the round
trip σ' = sigmaFromScore(expectedScore(σ, D), D) either reproduces σ within
0.01 or stopped at the binary search's early-exit tolerance, i.e. its expected
score is within 0.001 of the original expected score.  (The unconditional
0.01 σ-bound of the original claim is false: the early exit can trigger far
from σ, see the counterexample.) -/
theorem sigma_round_trip_close_or_tolerance_exit (sigma D : ℝ)
    (h0 : 0 < sigma) (h50 : sigma < 50) (hD : 0 < D) :
    |calculate_expected_score
        (calculate_sigma_from_score (calculate_expected_score sigma D) D) D -
      calculate_expected_score sigma D| < 0.001 ∨
    |calculate_sigma_from_score (calculate_expected_score sigma D) D - sigma|
      ≤ 0.01 := by
  have hlt : calculate_expected_score sigma D < 10 := expected_score_lt_ten h0 hD
  have hpos : 0 < calculate_expected_score sigma D := expected_score_pos h0 hD
  have hdef : calculate_sigma_from_score (calculate_expected_score sigma D) D =
      sigmaSearch (calculate_expected_score sigma D) D 0.001 50 0 200 := by
    unfold calculate_sigma_from_score
    rw [if_neg (not_le.mpr hlt), if_neg (not_le.mpr hpos)]
  rw [hdef]
  rcases sigmaSearch_approx h0 hD 50 0 200 le_rfl (le_of_lt h0)
      (by linarith) with h | h
  · exact Or.inl h
  · right
    refine h.trans ?_
    norm_num

/-- Witness for C3 (amended) at σ = 5 on the 40 cm face. -/
theorem sigma_round_trip_close_or_tolerance_exit_witness :
    (0:ℝ) < 5 ∧ (5:ℝ) < 50 ∧ (0:ℝ) < 40 ∧
      (|calculate_expected_score
          (calculate_sigma_from_score (calculate_expected_score 5 40) 40) 40 -
        calculate_expected_score 5 40| < 0.001 ∨
      |calculate_sigma_from_score (calculate_expected_score 5 40) 40 - 5|
        ≤ 0.01) :=
  ⟨by norm_num, by norm_num, by norm_num,
    sigma_round_trip_close_or_tolerance_exit 5 40 (by norm_num) (by norm_num)
      (by norm_num)⟩

/-- One unfolding step of the binary search (used to evaluate it on concrete
fuel without looping). -/
lemma sigmaSearch_succ (score face tol : ℝ) (n : ℕ) (low high : ℝ) :
    sigmaSearch score face tol (n + 1) low high =
      if |calculate_expected_score ((low + high) / 2) face - score| < tol then
        (low + high) / 2
      else if calculate_expected_score ((low + high) / 2) face > score then
        sigmaSearch score face tol n ((low + high) / 2) high
      else sigmaSearch score face tol n low ((low + high) / 2) := by
  simp only [sigmaSearch]

/-- Score-loss sum of `calculate_expected_score` on the 4000 cm face, with the
exponent collected into a single coefficient: `Σ_{i<10} exp(−c·(i+1)²)`. -/
noncomputable def expSum (c : ℝ) : ℝ :=
  ∑ i ∈ Finset.range 10, Real.exp (-(c * ((i : ℝ) + 1) ^ 2))

lemma expected_score_4000 (sigma c : ℝ) (hs : 0 < sigma)
    (hc : (200:ℝ) ^ 2 = c * (2 * sigma ^ 2)) :
    calculate_expected_score sigma 4000 = 10 - expSum c := by
  rw [expected_score_eq_sum sigma 4000 hs]
  unfold expSum
  congr 1
  refine Finset.sum_congr rfl (fun i _ => ?_)
  congr 1
  have h2 : (2 * sigma ^ 2) ≠ 0 := by positivity
  rw [div_eq_iff h2]
  linear_combination (-(((i:ℝ) + 1) ^ 2)) * hc

lemma expSum_nonneg (c : ℝ) : 0 ≤ expSum c :=
  Finset.sum_nonneg (fun i _ => (Real.exp_pos _).le)

lemma expSum_anti {c d : ℝ} (h : d ≤ c) : expSum c ≤ expSum d := by
  refine Finset.sum_le_sum (fun i _ => ?_)
  rw [Real.exp_le_exp, neg_le_neg_iff]
  exact mul_le_mul_of_nonneg_right h (sq_nonneg _)

lemma exp_le_expSum (c : ℝ) : Real.exp (-c) ≤ expSum c := by
  have h := Finset.single_le_sum
    (f := fun i : ℕ => Real.exp (-(c * ((i : ℝ) + 1) ^ 2)))
    (fun i _ => (Real.exp_pos _).le) (by norm_num : (0:ℕ) ∈ Finset.range 10)
  simpa using h

lemma expSum_le_ten_exp {c : ℝ} (hc : 0 ≤ c) : expSum c ≤ 10 * Real.exp (-c) := by
  have h := Finset.sum_le_card_nsmul (Finset.range 10)
    (fun i : ℕ => Real.exp (-(c * ((i : ℝ) + 1) ^ 2))) (Real.exp (-c))
    (fun i _ => by
      rw [Real.exp_le_exp, neg_le_neg_iff]
      have hi : (0:ℝ) ≤ (i : ℝ) := Nat.cast_nonneg i
      have key : 0 ≤ c * ((i:ℝ) ^ 2 + 2 * (i:ℝ)) :=
        mul_nonneg hc (by positivity)
      nlinarith [key])
  simpa [expSum, mul_comm] using h

lemma expSum_le_split {c : ℝ} (hc : 0 ≤ c) :
    expSum c ≤ Real.exp (-c) + 9 * Real.exp (-(4 * c)) := by
  unfold expSum
  rw [show (10:ℕ) = 9 + 1 from rfl, Finset.sum_range_succ']
  have h1 : ∑ i ∈ Finset.range 9,
      Real.exp (-(c * ((↑(i + 1) : ℝ) + 1) ^ 2)) ≤ 9 * Real.exp (-(4 * c)) := by
    have h := Finset.sum_le_card_nsmul (Finset.range 9)
      (fun i : ℕ => Real.exp (-(c * ((↑(i + 1) : ℝ) + 1) ^ 2)))
      (Real.exp (-(4 * c)))
      (fun i _ => by
        rw [Real.exp_le_exp, neg_le_neg_iff]
        have hi : (0:ℝ) ≤ (i : ℝ) := Nat.cast_nonneg i
        have key : 0 ≤ c * ((i:ℝ) ^ 2 + 4 * (i:ℝ)) :=
          mul_nonneg hc (by positivity)
        push_cast
        nlinarith [key])
    simpa [mul_comm] using h
  have h0 : Real.exp (-(c * ((↑(0:ℕ) : ℝ) + 1) ^ 2)) = Real.exp (-c) := by
    norm_num
  rw [h0]
  linarith

lemma exp_two_bounds : Real.exp 2 < 7.3890561 := by
  have h : Real.exp 2 = Real.exp 1 * Real.exp 1 := by
    rw [← Real.exp_add]; norm_num
  have hub := Real.exp_one_lt_d9
  have hpos := Real.exp_pos 1
  rw [h]
  nlinarith

lemma exp_neg_two_lb : (0.135 : ℝ) ≤ Real.exp (-2) := by
  rw [Real.exp_neg]
  rw [le_inv_comm₀ (by norm_num) (Real.exp_pos 2)]
  exact (lt_of_lt_of_le exp_two_bounds (by norm_num)).le

lemma exp_neg_eight_ub : Real.exp (-8) ≤ 1 / 2980 := by
  have h8 : Real.exp 8 = Real.exp 1 ^ 8 := by
    rw [← Real.exp_nat_mul]; norm_num
  have hlb : (2.7182818283 : ℝ) ^ 8 ≤ Real.exp 1 ^ 8 :=
    pow_le_pow_left (by norm_num) Real.exp_one_gt_d9.le 8
  have h2980 : (2980 : ℝ) ≤ Real.exp 8 := by
    rw [h8]
    calc (2980 : ℝ) ≤ 2.7182818283 ^ 8 := by norm_num
      _ ≤ Real.exp 1 ^ 8 := hlb
  rw [Real.exp_neg, inv_le_comm₀ (Real.exp_pos 8) (by norm_num)]
  linarith

lemma exp_neg_thirtytwo_ub : Real.exp (-32) ≤ 1 / 4000000000 := by
  have h32 : Real.exp 32 = Real.exp 1 ^ 32 := by
    rw [← Real.exp_nat_mul]; norm_num
  have hlb : (2 : ℝ) ^ 32 ≤ Real.exp 1 ^ 32 :=
    pow_le_pow_left (by norm_num)
      (by linarith [Real.exp_one_gt_d9] : (2:ℝ) ≤ Real.exp 1) 32
  have h4e9 : (4000000000 : ℝ) ≤ Real.exp 32 := by
    rw [h32]
    calc (4000000000 : ℝ) ≤ 2 ^ 32 := by norm_num
      _ ≤ Real.exp 1 ^ 32 := hlb
  rw [Real.exp_neg, inv_le_comm₀ (Real.exp_pos 32) (by norm_num)]
  linarith

/-- C3 counterexample: at σ = 25 on a 4000 cm face the binary search hits its
0.001 score-space early exit at mid = 50 on the second iteration and returns
50, so the round trip misses σ = 25 by 25 — far beyond 0.01. -/
theorem sigma_round_trip_fails_at_large_face :
    ¬ |calculate_sigma_from_score (calculate_expected_score 25 4000) 4000 - 25|
        ≤ 0.01 := by
  have hE25 : calculate_expected_score 25 4000 = 10 - expSum 32 :=
    expected_score_4000 25 32 (by norm_num) (by norm_num)
  have hE100 : calculate_expected_score 100 4000 = 10 - expSum 2 :=
    expected_score_4000 100 2 (by norm_num) (by norm_num)
  have hE50 : calculate_expected_score 50 4000 = 10 - expSum 8 :=
    expected_score_4000 50 8 (by norm_num) (by norm_num)
  have hB_ub : expSum 32 ≤ 10 * Real.exp (-32) := expSum_le_ten_exp (by norm_num)
  have hA_lb : Real.exp (-2) ≤ expSum 2 := exp_le_expSum 2
  have hC_ub : expSum 8 ≤ Real.exp (-8) + 9 * Real.exp (-(4 * 8)) :=
    expSum_le_split (by norm_num)
  have hBC : expSum 32 ≤ expSum 8 := expSum_anti (by norm_num)
  have hB0 : 0 ≤ expSum 32 := expSum_nonneg 32
  have he2 := exp_neg_two_lb
  have he8 := exp_neg_eight_ub
  have he32 := exp_neg_thirtytwo_ub
  have h4c : (-(4 * 8) : ℝ) = -32 := by norm_num
  rw [h4c] at hC_ub
  -- the function value at the true σ = 25
  have hlt : calculate_expected_score 25 4000 < 10 :=
    expected_score_lt_ten (by norm_num) (by norm_num)
  have hpos : 0 < calculate_expected_score 25 4000 :=
    expected_score_pos (by norm_num) (by norm_num)
  have hdef : calculate_sigma_from_score (calculate_expected_score 25 4000) 4000 =
      sigmaSearch (calculate_expected_score 25 4000) 4000 0.001 50 0 200 := by
    unfold calculate_sigma_from_score
    rw [if_neg (not_le.mpr hlt), if_neg (not_le.mpr hpos)]
  -- iteration 1: mid = 100, no early exit, predicted < score, so high := 100
  have step1 : sigmaSearch (calculate_expected_score 25 4000) 4000 0.001 50 0 200 =
      sigmaSearch (calculate_expected_score 25 4000) 4000 0.001 49 0 100 := by
    rw [show (50:ℕ) = 49 + 1 by norm_num, sigmaSearch_succ]
    rw [show ((0:ℝ) + 200) / 2 = 100 by norm_num, hE100, hE25]
    have hc1 : ¬ |10 - expSum 2 - (10 - expSum 32)| < 0.001 := by
      rw [show (10:ℝ) - expSum 2 - (10 - expSum 32) = -(expSum 2 - expSum 32)
          by ring, abs_neg, abs_of_nonneg (by linarith)]
      push_neg
      linarith
    have hc2 : ¬ (10 - expSum 2 > 10 - expSum 32) := by
      push_neg
      linarith
    rw [if_neg hc1, if_neg hc2]
  -- iteration 2: mid = 50, the 0.001 tolerance triggers, return 50
  have step2 : sigmaSearch (calculate_expected_score 25 4000) 4000 0.001 49 0 100 = 50 := by
    rw [show (49:ℕ) = 48 + 1 by norm_num, sigmaSearch_succ]
    rw [show ((0:ℝ) + 100) / 2 = 50 by norm_num, hE50, hE25]
    have hc3 : |10 - expSum 8 - (10 - expSum 32)| < 0.001 := by
      rw [show (10:ℝ) - expSum 8 - (10 - expSum 32) = -(expSum 8 - expSum 32)
          by ring, abs_neg, abs_of_nonneg (by linarith)]
      linarith
    rw [if_pos hc3]
  rw [hdef, step1, step2]
  rw [show (50:ℝ) - 25 = 25 by norm_num, abs_of_nonneg (by norm_num : (0:ℝ) ≤ 25)]
  norm_num

/-! ## Group statistics (`src/precision.py`) -/

/-- Python's built-in `round` on a real value: round half to even. -/
noncomputable def roundHalfEven (x : ℝ) : ℤ :=
  if Int.fract x < 1/2 then ⌊x⌋
  else if 1/2 < Int.fract x then ⌈x⌉
  else if Even ⌊x⌋ then ⌊x⌋ else ⌈x⌉

/-- Python's `round(x, p)` for `p` decimal digits. -/
noncomputable def pyRound (p : ℕ) (x : ℝ) : ℝ :=
  (roundHalfEven (x * 10 ^ p) : ℝ) / 10 ^ p

lemma fract_eq_self_sub_floor (x : ℝ) : Int.fract x = x - ⌊x⌋ := rfl

lemma ceil_eq_floor_add_one_of_fract_pos {x : ℝ} (h : 0 < Int.fract x) :
    ⌈x⌉ = ⌊x⌋ + 1 := by
  refine le_antisymm (Int.ceil_le_floor_add_one x) ?_
  by_contra hc
  push_neg at hc
  have h1 : (⌈x⌉ : ℝ) ≤ (⌊x⌋ : ℝ) := by exact_mod_cast Int.lt_add_one_iff.mp hc
  have h2 : x ≤ (⌊x⌋ : ℝ) := le_trans (Int.le_ceil x) h1
  rw [fract_eq_self_sub_floor] at h
  linarith

lemma roundHalfEven_le (x : ℝ) : (roundHalfEven x : ℝ) ≤ x + 1/2 := by
  unfold roundHalfEven
  have hfl := Int.floor_le x
  have hfr0 := Int.fract_nonneg x
  have hfr1 := Int.fract_lt_one x
  rw [fract_eq_self_sub_floor] at *
  split_ifs with h1 h2 h3
  · push_cast; linarith
  · have hc : ⌈x⌉ = ⌊x⌋ + 1 := by
      apply ceil_eq_floor_add_one_of_fract_pos
      rw [fract_eq_self_sub_floor]; linarith
    rw [hc]; push_cast; linarith
  · push_cast; linarith
  · have hc : ⌈x⌉ = ⌊x⌋ + 1 := by
      apply ceil_eq_floor_add_one_of_fract_pos
      rw [fract_eq_self_sub_floor]; linarith
    rw [hc]; push_cast; linarith

lemma le_roundHalfEven (x : ℝ) : x - 1/2 ≤ (roundHalfEven x : ℝ) := by
  unfold roundHalfEven
  have hfl := Int.floor_le x
  have hce := Int.le_ceil x
  have hfr0 := Int.fract_nonneg x
  rw [fract_eq_self_sub_floor] at *
  split_ifs with h1 h2 h3
  · push_cast; linarith
  · linarith
  · push_cast; linarith
  · linarith

lemma roundHalfEven_intCast (n : ℤ) : roundHalfEven (n : ℝ) = n := by
  unfold roundHalfEven
  rw [Int.fract_intCast]
  norm_num

lemma roundHalfEven_mono {x y : ℝ} (h : x ≤ y) :
    roundHalfEven x ≤ roundHalfEven y := by
  have hf : ⌊x⌋ ≤ ⌊y⌋ := Int.floor_le_floor h
  have hxlc := Int.floor_le_ceil x
  have hylc := Int.floor_le_ceil y
  have hxc1 := Int.ceil_le_floor_add_one x
  rcases lt_or_eq_of_le hf with hlt | heq
  · have h1 : roundHalfEven x ≤ ⌈x⌉ := by
      unfold roundHalfEven; split_ifs <;> omega
    have h2 : ⌊y⌋ ≤ roundHalfEven y := by
      unfold roundHalfEven; split_ifs <;> omega
    omega
  · have hfr : Int.fract x ≤ Int.fract y := by
      rw [fract_eq_self_sub_floor, fract_eq_self_sub_floor, heq]
      have : (⌊y⌋ : ℝ) = (⌊y⌋ : ℝ) := rfl
      linarith
    have hcx : 0 < Int.fract x → ⌈x⌉ = ⌊x⌋ + 1 :=
      fun hp => ceil_eq_floor_add_one_of_fract_pos hp
    have hcy : 0 < Int.fract y → ⌈y⌉ = ⌊y⌋ + 1 :=
      fun hp => ceil_eq_floor_add_one_of_fract_pos hp
    unfold roundHalfEven
    split_ifs with h1 h2 h3 h4 h5 h6 h7 h8 h9 <;>
      first
        | omega
        | (exfalso; linarith)
        | (rw [hcx (by linarith), hcy (by linarith)]; omega)
        | (rw [hcx (by linarith)]
           have := hcy (by linarith)
           omega)
        | (exfalso
           have hx2 : Int.fract x = 1/2 := by linarith
           have hy2 : Int.fract y = 1/2 := by linarith
           rw [heq] at *
           simp_all)

lemma pyRound_mono (p : ℕ) {x y : ℝ} (h : x ≤ y) : pyRound p x ≤ pyRound p y := by
  unfold pyRound
  have hm : roundHalfEven (x * 10 ^ p) ≤ roundHalfEven (y * 10 ^ p) :=
    roundHalfEven_mono (by
      have hp : (0:ℝ) < 10 ^ p := by positivity
      nlinarith)
  gcongr

/-- Embedding of `np.var(·, ddof=0)`: population variance. -/
noncomputable def np_var (l : List ℝ) : ℝ :=
  ((l.map (fun x => (x - npMean l) ^ 2)).sum) / l.length

/-- Embedding of `compute_drms` (`src/precision.py`): √(var(x) + var(y)). -/
noncomputable def compute_drms (xs ys : List ℝ) : ℝ :=
  Real.sqrt (np_var xs + np_var ys)

/-- Radial distances from the group mean, as computed inside `compute_r95`. -/
noncomputable def radiiList (xs ys : List ℝ) : List ℝ :=
  List.zipWith
    (fun x y => Real.sqrt ((x - npMean xs) ^ 2 + (y - npMean ys) ^ 2)) xs ys

/-- Embedding of `np.percentile(·, q)` with numpy's default linear
interpolation: on the ascending sort `s` of the data, at position
`h = q/100·(n−1)`, return `s[⌊h⌋] + (h−⌊h⌋)·(s[⌊h⌋+1] − s[⌊h⌋])`. -/
noncomputable def np_percentile (l : List ℝ) (q : ℝ) : ℝ :=
  let s := List.insertionSort (· ≤ ·) l
  let h := q / 100 * ((s.length : ℝ) - 1)
  let lo := s.getD (⌊h⌋).toNat 0
  let hi := s.getD ((⌊h⌋).toNat + 1) lo
  lo + (h - ⌊h⌋) * (hi - lo)

/-- Embedding of `compute_r95` (`src/precision.py`). -/
noncomputable def compute_r95 (xs ys : List ℝ) : ℝ :=
  np_percentile (radiiList xs ys) 95

lemma sum_zipWith_add (f g : ℝ → ℝ) :
    ∀ (xs ys : List ℝ), xs.length = ys.length →
      (List.zipWith (fun x y => f x + g y) xs ys).sum =
        (xs.map f).sum + (ys.map g).sum
  | [], [], _ => by simp
  | [], y :: ys, h => by simp at h
  | x :: xs, [], h => by simp at h
  | x :: xs, y :: ys, h => by
      simp only [List.zipWith_cons_cons, List.sum_cons, List.map_cons]
      rw [sum_zipWith_add f g xs ys (by simpa using h)]
      ring

lemma mem_zipWith_nonneg (g : ℝ → ℝ → ℝ) (hg : ∀ x y, 0 ≤ g x y) :
    ∀ (xs ys : List ℝ) (r : ℝ), r ∈ List.zipWith g xs ys → 0 ≤ r
  | [], _, r, hr => by simp at hr
  | x :: xs, [], r, hr => by simp at hr
  | x :: xs, y :: ys, r, hr => by
      simp only [List.zipWith_cons_cons, List.mem_cons] at hr
      rcases hr with h | h
      · rw [h]; exact hg x y
      · exact mem_zipWith_nonneg g hg xs ys r h

lemma radiiList_nonneg (xs ys : List ℝ) (r : ℝ) (hr : r ∈ radiiList xs ys) :
    0 ≤ r := by
  unfold radiiList at hr
  exact mem_zipWith_nonneg _ (fun x y => Real.sqrt_nonneg _) xs ys r hr

lemma sorted_le_getD_last :
    ∀ {s : List ℝ}, List.Sorted (· ≤ ·) s → ∀ x ∈ s, x ≤ s.getD (s.length - 1) 0 := by
  intro s
  induction s with
  | nil => intro _ x hx; simp at hx
  | cons a t ih =>
      intro hs x hx
      rcases List.sorted_cons.mp hs with ⟨ha, ht⟩
      cases t with
      | nil =>
          simp only [List.mem_singleton] at hx
          subst hx
          simp
      | cons b t' =>
          have hlen : (a :: b :: t').length - 1 = ((b :: t').length - 1) + 1 := by
            simp
          rw [hlen, List.getD_cons_succ]
          rcases List.mem_cons.mp hx with h | h
          · subst h
            have hmem : (b :: t').getD ((b :: t').length - 1) 0 ∈ (b :: t') := by
              rw [List.getD_eq_getElem _ _ (by simp)]
              exact List.getElem_mem _
            exact ha _ hmem
          · exact ih ht x h

lemma np_percentile_100 (l : List ℝ) (hne : l ≠ []) :
    np_percentile l 100 =
      (List.insertionSort (· ≤ ·) l).getD (l.length - 1) 0 := by
  simp only [np_percentile]
  have hlen : (List.insertionSort (· ≤ ·) l).length = l.length :=
    (List.perm_insertionSort _ l).length_eq
  have hpos : 1 ≤ l.length := List.length_pos.mpr hne
  have hcast : (100:ℝ) / 100 * (((List.insertionSort (· ≤ ·) l).length : ℝ) - 1) =
      ((l.length - 1 : ℕ) : ℝ) := by
    rw [hlen]
    push_cast [hpos]
    ring
  rw [hcast]
  have hfl : ⌊((l.length - 1 : ℕ) : ℝ)⌋ = (l.length - 1 : ℕ) := Int.floor_natCast _
  rw [hfl]
  simp

/-- C4 (amended): for every non-empty group, the MAXIMUM radial distance from
the group mean — the 100th percentile — is at least DRMS.  (At the 95th
percentile the claimed inequality is false, see the counterexample.) -/
theorem drms_le_max_radius (xs ys : List ℝ) (hne : xs ≠ [])
    (hlen : xs.length = ys.length) :
    compute_drms xs ys ≤ np_percentile (radiiList xs ys) 100 := by
  have hrlen : (radiiList xs ys).length = xs.length := by
    unfold radiiList
    rw [List.length_zipWith, hlen, min_self]
  have hrne : radiiList xs ys ≠ [] := by
    intro h
    rw [h] at hrlen
    exact hne (List.length_eq_zero.mp (by simpa using hrlen.symm))
  set s := List.insertionSort (· ≤ ·) (radiiList xs ys) with hs
  set M := s.getD ((radiiList xs ys).length - 1) 0 with hM
  have hperm : s.Perm (radiiList xs ys) := List.perm_insertionSort _ _
  have hslen : s.length = (radiiList xs ys).length := hperm.length_eq
  have hsorted : List.Sorted (· ≤ ·) s := List.sorted_insertionSort _ _
  have hp100 : np_percentile (radiiList xs ys) 100 = M :=
    np_percentile_100 _ hrne
  have hall : ∀ r ∈ radiiList xs ys, r ≤ M := by
    intro r hr
    have hrs : r ∈ s := hperm.mem_iff.mpr hr
    have := sorted_le_getD_last hsorted r hrs
    rwa [hslen] at this
  have hM0 : 0 ≤ M := by
    have hmem : M ∈ s := by
      have hpos : 0 < (radiiList xs ys).length := by
        rw [hrlen]; exact List.length_pos.mpr hne
      rw [hM, List.getD_eq_getElem _ _ (by rw [hslen]; omega)]
      exact List.getElem_mem _
    exact radiiList_nonneg xs ys M (hperm.mem_iff.mp hmem)
  rw [hp100]
  -- squared radii sum to n · (var x + var y)
  have hsq : ((radiiList xs ys).map (fun r => r ^ 2)).sum =
      (xs.map (fun x => (x - npMean xs) ^ 2)).sum +
        (ys.map (fun y => (y - npMean ys) ^ 2)).sum := by
    unfold radiiList
    rw [List.map_zipWith]
    have hfun : (fun (x y : ℝ) =>
        Real.sqrt ((x - npMean xs) ^ 2 + (y - npMean ys) ^ 2) ^ 2) =
        (fun (x y : ℝ) => (x - npMean xs) ^ 2 + (y - npMean ys) ^ 2) := by
      funext x y
      exact Real.sq_sqrt (by positivity)
    rw [hfun]
    exact sum_zipWith_add _ _ xs ys hlen
  have hbound : ((radiiList xs ys).map (fun r => r ^ 2)).sum ≤
      (xs.length : ℝ) * M ^ 2 := by
    have h := List.sum_le_card_nsmul ((radiiList xs ys).map (fun r => r ^ 2))
      (M ^ 2) ?_
    · rw [List.length_map, hrlen] at h
      simpa [nsmul_eq_mul] using h
    · intro z hz
      rcases List.mem_map.mp hz with ⟨r, hrmem, rfl⟩
      have h0 : 0 ≤ r := radiiList_nonneg xs ys r hrmem
      have h1 : r ≤ M := hall r hrmem
      exact pow_le_pow_left h0 h1 2
  have hn : (0:ℝ) < xs.length := by
    have := List.length_pos.mpr hne
    exact_mod_cast this
  have hvar : np_var xs + np_var ys ≤ M ^ 2 := by
    unfold np_var
    rw [← hlen]
    rw [div_add_div_same, div_le_iff hn]
    calc (xs.map (fun x => (x - npMean xs) ^ 2)).sum +
          (ys.map (fun y => (y - npMean ys) ^ 2)).sum
        = ((radiiList xs ys).map (fun r => r ^ 2)).sum := hsq.symm
      _ ≤ (xs.length : ℝ) * M ^ 2 := hbound
      _ = M ^ 2 * xs.length := by ring
  unfold compute_drms
  calc Real.sqrt (np_var xs + np_var ys) ≤ Real.sqrt (M ^ 2) :=
        Real.sqrt_le_sqrt hvar
    _ = M := by rw [Real.sqrt_sq hM0]

/-- Witness for C4 (amended) on a concrete two-shot group. -/
theorem drms_le_max_radius_witness :
    compute_drms [0, 2] [0, 0] ≤ np_percentile (radiiList [0, 2] [0, 0]) 100 :=
  drms_le_max_radius [0, 2] [0, 0] (by simp) (by simp)

lemma zipWith_replicate_eq (f : ℝ → ℝ → ℝ) (a b : ℝ) :
    ∀ n : ℕ, List.zipWith f (List.replicate n a) (List.replicate n b) =
      List.replicate n (f a b)
  | 0 => by simp
  | n + 1 => by
      simp only [List.replicate_succ, List.zipWith_cons_cons]
      rw [zipWith_replicate_eq f a b n]

/-- C4 counterexample: twenty coincident shots plus one far flier (20 at the
origin plus one at x = 21).  The radial distances from the mean (1, 0) are
twenty 1s and one 20, so the interpolated 95th percentile is 1 while
DRMS = √20 ≈ 4.47: R95 < DRMS. -/
theorem r95_lt_drms_counterexample :
    compute_r95 (List.replicate 20 (0:ℝ) ++ [21]) (List.replicate 20 (0:ℝ) ++ [0])
      < compute_drms (List.replicate 20 (0:ℝ) ++ [21])
          (List.replicate 20 (0:ℝ) ++ [0]) := by
  have hmx : npMean (List.replicate 20 (0:ℝ) ++ [21]) = 1 := by
    unfold npMean
    rw [List.sum_append, List.sum_replicate]
    simp
  have hmy : npMean (List.replicate 20 (0:ℝ) ++ [0]) = 0 := by
    unfold npMean
    rw [List.sum_append, List.sum_replicate]
    simp
  have hradii : radiiList (List.replicate 20 (0:ℝ) ++ [21])
      (List.replicate 20 (0:ℝ) ++ [0]) = List.replicate 20 (1:ℝ) ++ [20] := by
    unfold radiiList
    rw [hmx, hmy]
    rw [List.zipWith_append _ _ _ _ _ (by simp)]
    rw [zipWith_replicate_eq]
    congr 1
    · congr 1
      rw [show ((0:ℝ) - 1) ^ 2 + ((0:ℝ) - 0) ^ 2 = 1 by norm_num, Real.sqrt_one]
    · simp only [List.zipWith_cons_cons, List.zipWith_nil_right]
      rw [show ((21:ℝ) - 1) ^ 2 + ((0:ℝ) - 0) ^ 2 = 20 ^ 2 by norm_num,
        Real.sqrt_sq (by norm_num : (0:ℝ) ≤ 20)]
  have hsorted : List.Sorted (· ≤ ·) (List.replicate 20 (1:ℝ) ++ [20]) := by
    apply List.pairwise_append.mpr
    refine ⟨?_, ?_, ?_⟩
    · exact List.pairwise_replicate.mpr (Or.inr le_rfl)
    · simp
    · intro a ha b hb
      rw [List.eq_of_mem_replicate ha, List.mem_singleton.mp hb]
      norm_num
  have hsort_eq : List.insertionSort (· ≤ ·) (List.replicate 20 (1:ℝ) ++ [20]) =
      List.replicate 20 (1:ℝ) ++ [20] := hsorted.insertionSort_eq
  have hr95 : compute_r95 (List.replicate 20 (0:ℝ) ++ [21])
      (List.replicate 20 (0:ℝ) ++ [0]) = 1 := by
    unfold compute_r95
    rw [hradii]
    simp only [np_percentile]
    rw [hsort_eq]
    have hlen : (List.replicate 20 (1:ℝ) ++ [20]).length = 21 := by simp
    rw [hlen]
    have hh : (95:ℝ) / 100 * (((21:ℕ):ℝ) - 1) = ((19:ℤ):ℝ) := by
      push_cast; norm_num
    rw [hh, Int.floor_intCast]
    have hlo : (List.replicate 20 (1:ℝ) ++ [20]).getD ((19:ℤ).toNat) 0 = 1 := by
      rw [show ((19:ℤ).toNat) = 19 from rfl,
        List.getD_append _ _ _ _ (by simp),
        List.getD_eq_getElem _ _ (by simp), List.getElem_replicate]
    rw [hlo]
    ring
  have hvx : np_var (List.replicate 20 (0:ℝ) ++ [21]) = 20 := by
    unfold np_var
    rw [hmx, List.map_append, List.map_replicate, List.sum_append,
      List.sum_replicate]
    norm_num
  have hvy : np_var (List.replicate 20 (0:ℝ) ++ [0]) = 0 := by
    unfold np_var
    rw [hmy, List.map_append, List.map_replicate, List.sum_append,
      List.sum_replicate]
    norm_num
  have hdrms : compute_drms (List.replicate 20 (0:ℝ) ++ [21])
      (List.replicate 20 (0:ℝ) ++ [0]) = Real.sqrt 20 := by
    unfold compute_drms
    rw [hvx, hvy]
    norm_num
  rw [hr95, hdrms]
  calc (1:ℝ) = Real.sqrt 1 := Real.sqrt_one.symm
    _ < Real.sqrt 20 := Real.sqrt_lt_sqrt (by norm_num) (by norm_num)

/-- CDF of the χ² distribution with an even number 2n of degrees of freedom
(closed form): `F(x) = 1 − e^(−x/2) · Σ_{j<n} (x/2)^j / j!`.  This is the
mathematical meaning of `scipy.stats.chi2.cdf(x, 2n)`. -/
noncomputable def chi2cdf_even (n : ℕ) (x : ℝ) : ℝ :=
  1 - Real.exp (-x / 2) * ∑ j ∈ Finset.range n, (x / 2) ^ j / (Nat.factorial j)

/-- Quantile function of χ²(2n) — the meaning of
`scipy.stats.chi2.ppf(p, 2n)` — as the infimum of the upper level set of the
CDF. -/
noncomputable def chi2ppf_even (p : ℝ) (n : ℕ) : ℝ :=
  sInf {x : ℝ | 0 ≤ x ∧ p ≤ chi2cdf_even n x}

/-- Numeric fields of the dict returned by `compute_rayleigh_sigma_with_ci`. -/
structure RayleighResult where
  sigma : ℝ
  ci_lower : ℝ
  ci_upper : ℝ
  confidence : ℝ

/-- Embedding of `compute_rayleigh_sigma_with_ci` (`src/precision.py`):
σ = √(Σr²/(2n)) over squared radial distances from the mean point of impact,
CI bounds via χ²(2n) quantiles, all three values rounded to 3 decimals. -/
noncomputable def compute_rayleigh_sigma_with_ci (xs ys : List ℝ)
    (confidence : ℝ := 0.95) : RayleighResult :=
  let cx := npMean xs
  let cy := npMean ys
  let r_sq := List.zipWith (fun x y => (x - cx) ^ 2 + (y - cy) ^ 2) xs ys
  let n := xs.length
  let sigma_sq := r_sq.sum / (2 * (n : ℝ))
  let sigma := Real.sqrt sigma_sq
  let alpha := 1 - confidence
  let chi2_lower := chi2ppf_even (alpha / 2) n
  let chi2_upper := chi2ppf_even (1 - alpha / 2) n
  let ci_lower := sigma * Real.sqrt (2 * (n : ℝ) / chi2_upper)
  let ci_upper := sigma * Real.sqrt (2 * (n : ℝ) / chi2_lower)
  { sigma := pyRound 3 sigma
    ci_lower := pyRound 3 ci_lower
    ci_upper := pyRound 3 ci_upper
    confidence := confidence }

lemma chi2ppf_le {p x : ℝ} {n : ℕ} (hx : 0 ≤ x)
    (hcdf : p ≤ chi2cdf_even n x) : chi2ppf_even p n ≤ x :=
  csInf_le ⟨0, fun y hy => hy.1⟩ ⟨hx, hcdf⟩

lemma le_chi2ppf {p c : ℝ} {n : ℕ} (hne : ∃ x, 0 ≤ x ∧ p ≤ chi2cdf_even n x)
    (hc : ∀ y, 0 ≤ y → p ≤ chi2cdf_even n y → c ≤ y) :
    c ≤ chi2ppf_even p n :=
  le_csInf hne (fun y hy => hc y hy.1 hy.2)

lemma chi2cdf_even_two (x : ℝ) :
    chi2cdf_even 2 x = 1 - Real.exp (-x / 2) * (1 + x / 2) := by
  unfold chi2cdf_even
  rw [Finset.sum_range_succ, Finset.sum_range_one]
  norm_num [Nat.factorial]

/-- C5 (amended): for every non-empty group and confidence level, WHEN the two
χ²(2n) quantiles straddle 2n — which holds at the default 0.95 level but not
for every confidence in (0,1) — the Rayleigh result satisfies
ci_lower ≤ sigma ≤ ci_upper. -/
theorem rayleigh_ci_brackets_sigma (xs ys : List ℝ) (confidence : ℝ)
    (hne : xs ≠ [])
    (h1 : 0 < chi2ppf_even ((1 - confidence) / 2) xs.length)
    (h2 : chi2ppf_even ((1 - confidence) / 2) xs.length ≤ 2 * (xs.length : ℝ))
    (h3 : 2 * (xs.length : ℝ) ≤
      chi2ppf_even (1 - (1 - confidence) / 2) xs.length) :
    (compute_rayleigh_sigma_with_ci xs ys confidence).ci_lower ≤
        (compute_rayleigh_sigma_with_ci xs ys confidence).sigma ∧
      (compute_rayleigh_sigma_with_ci xs ys confidence).sigma ≤
        (compute_rayleigh_sigma_with_ci xs ys confidence).ci_upper := by
  simp only [compute_rayleigh_sigma_with_ci]
  set sigma := Real.sqrt
    ((List.zipWith (fun x y => (x - npMean xs) ^ 2 + (y - npMean ys) ^ 2)
        xs ys).sum / (2 * (xs.length : ℝ))) with hsigma
  have hs0 : 0 ≤ sigma := Real.sqrt_nonneg _
  have hn1 : (1:ℝ) ≤ (xs.length : ℝ) := by
    have := List.length_pos.mpr hne
    exact_mod_cast this
  constructor
  · apply pyRound_mono
    have hle1 : Real.sqrt (2 * (xs.length : ℝ) /
        chi2ppf_even (1 - (1 - confidence) / 2) xs.length) ≤ 1 := by
      rw [Real.sqrt_le_one]
      rw [div_le_one (by linarith)]
      exact h3
    calc sigma * Real.sqrt (2 * (xs.length : ℝ) /
          chi2ppf_even (1 - (1 - confidence) / 2) xs.length)
        ≤ sigma * 1 := by
          exact mul_le_mul_of_nonneg_left hle1 hs0
      _ = sigma := mul_one sigma
  · apply pyRound_mono
    have hge1 : 1 ≤ Real.sqrt (2 * (xs.length : ℝ) /
        chi2ppf_even ((1 - confidence) / 2) xs.length) := by
      rw [Real.one_le_sqrt]
      rw [le_div_iff h1]
      linarith
    exact le_mul_of_one_le_right hs0 hge1

lemma exp_two_lb : (7.389:ℝ) ≤ Real.exp 2 := by
  have h : Real.exp 2 = Real.exp 1 * Real.exp 1 := by
    rw [← Real.exp_add]; norm_num
  have hlb := Real.exp_one_gt_d9
  rw [h]
  nlinarith

lemma exp_neg_two_ub : Real.exp (-2) ≤ 0.14 := by
  rw [Real.exp_neg, inv_le_comm₀ (Real.exp_pos 2) (by norm_num)]
  linarith [exp_two_lb]

lemma exp_neg_195_ub : Real.exp (-1.95) ≤ 0.148 := by
  have hsplit : Real.exp (-1.95) = Real.exp (-2) * Real.exp 0.05 := by
    rw [← Real.exp_add]; norm_num
  have h005 : Real.exp 0.05 ≤ (0.95:ℝ)⁻¹ := by
    have h1 : (0.95:ℝ) ≤ Real.exp (-0.05) := by
      have := Real.add_one_le_exp (-0.05)
      linarith
    have h2 : Real.exp 0.05 = (Real.exp (-0.05))⁻¹ := by
      rw [← Real.exp_neg]; norm_num
    rw [h2]
    exact inv_le_inv_of_le (by norm_num) h1
  rw [hsplit]
  have hpos : (0:ℝ) < Real.exp 0.05 := Real.exp_pos _
  nlinarith [exp_neg_two_ub, (Real.exp_pos (-2)).le]

lemma chi2cdf4_at_four : (0.025:ℝ) ≤ chi2cdf_even 2 4 := by
  rw [chi2cdf_even_two]
  have h : Real.exp (-(4:ℝ) / 2) = Real.exp (-2) := by norm_num
  rw [h]
  nlinarith [exp_neg_two_ub, (Real.exp_pos (-2)).le]

lemma chi2ppf_025_le_four : chi2ppf_even 0.025 2 ≤ 4 :=
  chi2ppf_le (by norm_num) chi2cdf4_at_four

lemma chi2ppf_025_pos : 0 < chi2ppf_even 0.025 2 := by
  refine lt_of_lt_of_le (show (0:ℝ) < 0.1 by norm_num) ?_
  refine le_chi2ppf ⟨4, by norm_num, chi2cdf4_at_four⟩ ?_
  intro y hy hcdf
  by_contra hlt
  push_neg at hlt
  rw [chi2cdf_even_two] at hcdf
  have hexp : 1 - y / 2 ≤ Real.exp (-y / 2) := by
    have := Real.add_one_le_exp (-y / 2)
    linarith
  have h1y : (0:ℝ) ≤ 1 + y / 2 := by linarith
  have hprod : (1 - y / 2) * (1 + y / 2) ≤ Real.exp (-y / 2) * (1 + y / 2) :=
    mul_le_mul_of_nonneg_right hexp h1y
  nlinarith [sq_nonneg y]

lemma four_le_chi2ppf_975 : (4:ℝ) ≤ chi2ppf_even 0.975 2 := by
  refine le_chi2ppf ⟨16, by norm_num, ?_⟩ ?_
  · rw [chi2cdf_even_two]
    have h : Real.exp (-(16:ℝ) / 2) = Real.exp (-8) := by norm_num
    rw [h]
    nlinarith [exp_neg_eight_ub, (Real.exp_pos (-8)).le]
  · intro y hy hcdf
    by_contra hlt
    push_neg at hlt
    rw [chi2cdf_even_two] at hcdf
    have h1 : Real.exp (-2) ≤ Real.exp (-y / 2) :=
      Real.exp_le_exp.mpr (by linarith)
    have h2 : (1:ℝ) ≤ 1 + y / 2 := by linarith
    have h3 : Real.exp (-2) * 1 ≤ Real.exp (-y / 2) * (1 + y / 2) :=
      mul_le_mul h1 h2 (by norm_num) (Real.exp_pos _).le
    nlinarith [exp_neg_two_lb]

lemma one_le_chi2ppf_051 : (1:ℝ) ≤ chi2ppf_even 0.51 2 := by
  refine le_chi2ppf ⟨3.9, by norm_num, ?_⟩ ?_
  · rw [chi2cdf_even_two]
    have h : Real.exp (-(3.9:ℝ) / 2) = Real.exp (-1.95) := by norm_num
    rw [h]
    nlinarith [exp_neg_195_ub, (Real.exp_pos (-1.95)).le]
  · intro y hy hcdf
    by_contra hlt
    push_neg at hlt
    rw [chi2cdf_even_two] at hcdf
    have hexp : 1 - y / 2 ≤ Real.exp (-y / 2) := by
      have := Real.add_one_le_exp (-y / 2)
      linarith
    have h1y : (0:ℝ) ≤ 1 + y / 2 := by linarith
    have hprod : (1 - y / 2) * (1 + y / 2) ≤ Real.exp (-y / 2) * (1 + y / 2) :=
      mul_le_mul_of_nonneg_right hexp h1y
    nlinarith [sq_nonneg y]

lemma chi2ppf_051_le : chi2ppf_even 0.51 2 ≤ 3.9 := by
  refine chi2ppf_le (by norm_num) ?_
  rw [chi2cdf_even_two]
  have h : Real.exp (-(3.9:ℝ) / 2) = Real.exp (-1.95) := by norm_num
  rw [h]
  nlinarith [exp_neg_195_ub, (Real.exp_pos (-1.95)).le]

/-- Witness for C5 (amended): the two-shot group (0,0), (2,0) at the default
0.95 confidence; the χ²(4) quantiles 0.975/0.025 do straddle 4. -/
theorem rayleigh_ci_brackets_sigma_witness :
    (0:ℝ) < chi2ppf_even ((1 - 0.95) / 2) (([0, 2] : List ℝ)).length ∧
      chi2ppf_even ((1 - 0.95) / 2) (([0, 2] : List ℝ)).length ≤
        2 * ((([0, 2] : List ℝ)).length : ℝ) ∧
      2 * ((([0, 2] : List ℝ)).length : ℝ) ≤
        chi2ppf_even (1 - (1 - 0.95) / 2) (([0, 2] : List ℝ)).length ∧
      ((compute_rayleigh_sigma_with_ci [0, 2] [0, 0] 0.95).ci_lower ≤
          (compute_rayleigh_sigma_with_ci [0, 2] [0, 0] 0.95).sigma ∧
        (compute_rayleigh_sigma_with_ci [0, 2] [0, 0] 0.95).sigma ≤
          (compute_rayleigh_sigma_with_ci [0, 2] [0, 0] 0.95).ci_upper) := by
  have hlen : (([0, 2] : List ℝ)).length = 2 := rfl
  have harg1 : ((1:ℝ) - 0.95) / 2 = 0.025 := by norm_num
  have harg2 : (1:ℝ) - (1 - 0.95) / 2 = 0.975 := by norm_num
  have hq1 : (0:ℝ) < chi2ppf_even ((1 - 0.95) / 2) (([0, 2] : List ℝ)).length := by
    rw [hlen, harg1]; exact chi2ppf_025_pos
  have hq2 : chi2ppf_even ((1 - 0.95) / 2) (([0, 2] : List ℝ)).length ≤
      2 * ((([0, 2] : List ℝ)).length : ℝ) := by
    rw [hlen, harg1]
    push_cast
    linarith [chi2ppf_025_le_four]
  have hq3 : 2 * ((([0, 2] : List ℝ)).length : ℝ) ≤
      chi2ppf_even (1 - (1 - 0.95) / 2) (([0, 2] : List ℝ)).length := by
    rw [hlen, harg2]
    push_cast
    linarith [four_le_chi2ppf_975]
  exact ⟨hq1, hq2, hq3,
    rayleigh_ci_brackets_sigma [0, 2] [0, 0] 0.95 (by simp) hq1 hq2 hq3⟩

/-- C5 counterexample: at confidence 0.02 the returned interval does NOT
bracket the point estimate — for the group (0,0), (2,0) the rounded
ci_lower ≈ 0.716 exceeds the rounded σ = 0.707, because the χ²(4) quantile at
1 − α/2 = 0.51 (≈3.36, the median side) is below 2n = 4. -/
theorem rayleigh_ci_violated_at_low_confidence :
    ¬ ((compute_rayleigh_sigma_with_ci [0, 2] [0, 0] 0.02).ci_lower ≤
        (compute_rayleigh_sigma_with_ci [0, 2] [0, 0] 0.02).sigma) := by
  have hm1 : npMean [0, 2] = 1 := by
    unfold npMean; norm_num
  have hm2 : npMean [0, 0] = 0 := by
    unfold npMean; norm_num
  have hsum : (List.zipWith
      (fun x y => (x - npMean [0, 2]) ^ 2 + (y - npMean [0, 0]) ^ 2)
      ([0, 2] : List ℝ) ([0, 0] : List ℝ)).sum /
        (2 * ((([0, 2] : List ℝ)).length : ℝ)) = 1 / 2 := by
    rw [hm1, hm2]
    norm_num [List.zipWith_cons_cons]
  have hlen4 : 2 * ((([0, 2] : List ℝ)).length : ℝ) = 4 := by
    norm_num
  have harg : (1:ℝ) - (1 - 0.02) / 2 = 0.51 := by norm_num
  have hsigma_field : (compute_rayleigh_sigma_with_ci [0, 2] [0, 0] 0.02).sigma =
      pyRound 3 (Real.sqrt (1 / 2)) := by
    simp only [compute_rayleigh_sigma_with_ci]
    rw [hsum]
  have hcil_field : (compute_rayleigh_sigma_with_ci [0, 2] [0, 0] 0.02).ci_lower =
      pyRound 3 (Real.sqrt (1 / 2) *
        Real.sqrt (4 / chi2ppf_even 0.51 2)) := by
    simp only [compute_rayleigh_sigma_with_ci]
    rw [hsum, hlen4, harg]
    rfl
  rw [hsigma_field, hcil_field]
  set q := chi2ppf_even 0.51 2 with hqdef
  have hql : (1:ℝ) ≤ q := one_le_chi2ppf_051
  have hqu : q ≤ 3.9 := chi2ppf_051_le
  have hq0 : (0:ℝ) < q := by linarith
  -- raw ci_lower = √(2/q) ≥ √(2/3.9) ≥ 0.716
  have hraw : Real.sqrt (1 / 2) * Real.sqrt (4 / q) = Real.sqrt (2 / q) := by
    rw [← Real.sqrt_mul (by norm_num : (0:ℝ) ≤ 1 / 2)]
    congr 1
    field_simp
    ring
  have hdiv : (2:ℝ) / 3.9 ≤ 2 / q :=
    div_le_div_of_nonneg_left (by norm_num) hq0 hqu
  have h716 : (0.716:ℝ) ≤ Real.sqrt (2 / 3.9) := by
    rw [Real.le_sqrt (by norm_num) (by norm_num)]
    norm_num
  have hraw_lb : (0.716:ℝ) ≤ Real.sqrt (1 / 2) * Real.sqrt (4 / q) := by
    rw [hraw]
    exact h716.trans (Real.sqrt_le_sqrt hdiv)
  -- rounded ci_lower ≥ 0.7155
  have hrounded_lb : (0.7155:ℝ) ≤ pyRound 3 (Real.sqrt (1 / 2) *
      Real.sqrt (4 / q)) := by
    unfold pyRound
    have hle := le_roundHalfEven (Real.sqrt (1 / 2) * Real.sqrt (4 / q) * 10 ^ 3)
    have hge : (715.5:ℝ) ≤
        (roundHalfEven (Real.sqrt (1 / 2) * Real.sqrt (4 / q) * 10 ^ 3) : ℝ) := by
      nlinarith
    rw [le_div_iff (by positivity : (0:ℝ) < (10:ℝ) ^ 3)]
    nlinarith
  have hslb : (0.707:ℝ) ≤ Real.sqrt (1 / 2) := by
    rw [Real.le_sqrt (by norm_num) (by norm_num)]
    norm_num
  have hsub : Real.sqrt (1 / 2) < 0.7075 := by
    rw [show (0.7075:ℝ) = Real.sqrt (0.7075 ^ 2) by
        rw [Real.sqrt_sq (by norm_num)]]
    exact Real.sqrt_lt_sqrt (by norm_num) (by norm_num)
  -- rounded sigma = 0.707 exactly
  have hfl : ⌊Real.sqrt (1 / 2) * 10 ^ 3⌋ = 707 := by
    rw [Int.floor_eq_iff]
    constructor
    · push_cast
      nlinarith
    · push_cast
      nlinarith
  have hfr : Int.fract (Real.sqrt (1 / 2) * 10 ^ 3) < 1 / 2 := by
    rw [fract_eq_self_sub_floor, hfl]
    push_cast
    nlinarith
  have hsround : pyRound 3 (Real.sqrt (1 / 2)) = 707 / 1000 := by
    unfold pyRound roundHalfEven
    rw [if_pos hfr, hfl]
    norm_num
  rw [hsround]
  push_neg
  calc (707:ℝ) / 1000 < 0.7155 := by norm_num
    _ ≤ pyRound 3 (Real.sqrt (1 / 2) * Real.sqrt (4 / q)) := hrounded_lb

/-! ## Trend and consistency: EWMA control chart (`src/precision.py`) -/

/-- Embedding of `np.std(·, ddof=1)`: sample standard deviation. -/
noncomputable def np_std_ddof1 (l : List ℝ) : ℝ :=
  Real.sqrt ((l.map (fun x => (x - npMean l) ^ 2)).sum / ((l.length : ℝ) - 1))

/-- Fields of the dict returned by `compute_ewma`. -/
structure EwmaResult where
  ewma : List ℝ
  ucl : List ℝ
  lcl : List ℝ
  mean : ℝ
  sigma : ℝ

/-- The EWMA recursion: carries the unrounded smoothed value forward and emits
each value rounded to 4 decimals, exactly as the source loop does. -/
noncomputable def ewmaList (lam : ℝ) : ℝ → List ℝ → List ℝ
  | _, [] => []
  | prev, x :: rest =>
      pyRound 4 (lam * x + (1 - lam) * prev)
        :: ewmaList lam (lam * x + (1 - lam) * prev) rest

/-- Embedding of `compute_ewma(values, lam=0.2)` (`src/precision.py`):
EWMA seeded at the series mean, with time-varying control limits
`μ ± 2.7·σ·√(λ/(2−λ)·(1−(1−λ)^(2(i+1))))`, σ the sample std. -/
noncomputable def compute_ewma (values : List ℝ) (lam : ℝ := 0.2) : EwmaResult :=
  if values.length < 2 then
    { ewma := values, ucl := values, lcl := values,
      mean := values.headD 0, sigma := 0 }
  else
    let mu := npMean values
    let sigma := np_std_ddof1 values
    let L : ℝ := 2.7
    { ewma := ewmaList lam mu values
      ucl := (List.range values.length).map (fun i => pyRound 4 (mu +
        L * (sigma * Real.sqrt (lam / (2 - lam) * (1 - (1 - lam) ^ (2 * (i + 1)))))))
      lcl := (List.range values.length).map (fun i => pyRound 4 (mu -
        L * (sigma * Real.sqrt (lam / (2 - lam) * (1 - (1 - lam) ^ (2 * (i + 1)))))))
      mean := pyRound 4 mu
      sigma := pyRound 4 sigma }

lemma getD_map_range (n t : ℕ) (f : ℕ → ℝ) (ht : t < n) :
    ((List.range n).map f).getD t 0 = f t := by
  rw [List.getD_eq_getElem _ _ (by simpa using ht)]
  simp

/-- C6 (amended): for every series of length ≥ 2, every smoothing parameter
and every index t, the EWMA control limits satisfy LCL_t ≤ UCL_t.  (The
strict inequality claimed by the spec fails on constant series, where the
sample std — and hence the limit width — is zero.) -/
theorem ewma_lcl_le_ucl (values : List ℝ) (lam : ℝ) (t : ℕ)
    (hlen : 2 ≤ values.length) (ht : t < values.length) :
    (compute_ewma values lam).lcl.getD t 0 ≤
      (compute_ewma values lam).ucl.getD t 0 := by
  simp only [compute_ewma, if_neg (by omega : ¬ values.length < 2)]
  rw [getD_map_range _ _ _ ht, getD_map_range _ _ _ ht]
  apply pyRound_mono
  have hfac : 0 ≤ np_std_ddof1 values *
      Real.sqrt (lam / (2 - lam) * (1 - (1 - lam) ^ (2 * (t + 1)))) :=
    mul_nonneg (Real.sqrt_nonneg _) (Real.sqrt_nonneg _)
  nlinarith

/-- Witness for C6 (amended) on the series [5, 6] at index 0. -/
theorem ewma_lcl_le_ucl_witness :
    2 ≤ ([5, 6] : List ℝ).length ∧ 0 < ([5, 6] : List ℝ).length ∧
      (compute_ewma [5, 6] 0.2).lcl.getD 0 0 ≤
        (compute_ewma [5, 6] 0.2).ucl.getD 0 0 :=
  ⟨by norm_num, by norm_num,
    ewma_lcl_le_ucl [5, 6] 0.2 0 (by norm_num) (by norm_num)⟩

/-- C6 counterexample: on the constant series [5, 5] the sample standard
deviation is 0, so UCL₀ = LCL₀ = 5 — the strict inequality UCL_t > LCL_t
fails. -/
theorem ewma_limits_collapse_on_constant_series :
    ¬ ((compute_ewma [5, 5] 0.2).lcl.getD 0 0 <
        (compute_ewma [5, 5] 0.2).ucl.getD 0 0) := by
  have hm : npMean [5, 5] = 5 := by
    unfold npMean; norm_num
  have hs : np_std_ddof1 [5, 5] = 0 := by
    unfold np_std_ddof1
    rw [hm]
    norm_num
  simp only [compute_ewma, if_neg (by norm_num : ¬ ([5, 5] : List ℝ).length < 2)]
  rw [getD_map_range _ _ _ (by norm_num), getD_map_range _ _ _ (by norm_num),
    hm, hs]
  norm_num

/-! ## Equipment comparison (`src/precision.py`) -/

/-- Embedding of `np.var(·, ddof=1)`: sample variance. -/
noncomputable def np_var_ddof1 (l : List ℝ) : ℝ :=
  (l.map (fun x => (x - npMean l) ^ 2)).sum / ((l.length : ℝ) - 1)

/-- Density of Student's t distribution with ν degrees of freedom (the
mathematical meaning of the distribution scipy's `ttest_ind` p-value is drawn
from). -/
noncomputable def studentTPDF (nu t : ℝ) : ℝ :=
  Real.Gamma ((nu + 1) / 2) /
      (Real.sqrt (nu * Real.pi) * Real.Gamma (nu / 2)) *
    (1 + t ^ 2 / nu) ^ (-((nu + 1) / 2))

/-- CDF of Student's t distribution with ν degrees of freedom. -/
noncomputable def studentTCDF (nu x : ℝ) : ℝ :=
  ∫ t in Set.Iic x, studentTPDF nu t

/-- Welch's unequal-variance two-sample two-sided p-value — the mathematical
meaning of `scipy.stats.ttest_ind(a, b, equal_var=False)`. -/
noncomputable def welch_p_value (a b : List ℝ) : ℝ :=
  let va := np_var_ddof1 a / a.length
  let vb := np_var_ddof1 b / b.length
  let tstat := (npMean a - npMean b) / Real.sqrt (va + vb)
  let df := (va + vb) ^ 2 /
    (va ^ 2 / ((a.length : ℝ) - 1) + vb ^ 2 / ((b.length : ℝ) - 1))
  2 * (1 - studentTCDF df |tstat|)

/-- Numeric fields of the dict returned by `compute_equipment_comparison`
(the setup-name and interpretation strings are presentation only and are not
modelled). -/
structure EquipComparison where
  score_diff : ℝ
  score_p_value : ℝ
  score_cohens_d : ℝ
  sigma_diff : ℝ
  sigma_p_value : ℝ
  score_significant : Bool
  sigma_significant : Bool

/-- The "insufficient data" record the source returns when either SCORE series
has fewer than two entries: p-values 1.0, differences 0, nothing
significant. -/
def insufficientComparison : EquipComparison :=
  { score_diff := 0, score_p_value := 1, score_cohens_d := 0,
    sigma_diff := 0, sigma_p_value := 1,
    score_significant := false, sigma_significant := false }

/-- Embedding of `compute_equipment_comparison` (`src/precision.py`).  Note
the guard tests only the two score series; the sigma series lengths are only
consulted for the sigma t-test itself. -/
noncomputable def compute_equipment_comparison
    (setup_a_scores setup_a_sigmas setup_b_scores setup_b_sigmas : List ℝ) :
    EquipComparison :=
  if setup_a_scores.length < 2 ∨ setup_b_scores.length < 2 then
    insufficientComparison
  else
    let p_score := welch_p_value setup_a_scores setup_b_scores
    let score_diff := npMean setup_a_scores - npMean setup_b_scores
    let pooled_std := Real.sqrt
      ((np_var_ddof1 setup_a_scores + np_var_ddof1 setup_b_scores) / 2)
    let cohens_d := if pooled_std > 0.001 then score_diff / pooled_std else 0
    let p_sigma := if 2 ≤ setup_a_sigmas.length ∧ 2 ≤ setup_b_sigmas.length
      then welch_p_value setup_a_sigmas setup_b_sigmas else 1
    let sigma_diff := npMean setup_a_sigmas - npMean setup_b_sigmas
    { score_diff := pyRound 3 score_diff
      score_p_value := pyRound 4 p_score
      score_cohens_d := pyRound 3 cohens_d
      sigma_diff := pyRound 3 sigma_diff
      sigma_p_value := pyRound 4 p_sigma
      score_significant := if p_score < 0.05 then true else false
      sigma_significant := if p_sigma < 0.05 then true else false }

/-- C7 (amended): when either SCORE series has fewer than 2 observations the
function returns the defined insufficient-data result (p-values 1.0, both
differences 0).  The sigma series lengths are NOT part of this guard: a short
sigma series with two full score series still produces a fully computed
result, contrary to the claim's "any of the four input series". -/
theorem equipment_comparison_insufficient_scores
    (a_scores a_sigmas b_scores b_sigmas : List ℝ)
    (h : a_scores.length < 2 ∨ b_scores.length < 2) :
    compute_equipment_comparison a_scores a_sigmas b_scores b_sigmas =
      insufficientComparison := by
  simp only [compute_equipment_comparison, if_pos h]

/-- Witness for C7 (amended) on an empty A-score series. -/
theorem equipment_comparison_insufficient_scores_witness :
    (([] : List ℝ)).length < 2 ∧
      compute_equipment_comparison [] [1, 2] [3, 4] [5, 6] =
        insufficientComparison :=
  ⟨by norm_num,
    equipment_comparison_insufficient_scores [] [1, 2] [3, 4] [5, 6]
      (Or.inl (by norm_num))⟩

/-- C7 counterexample: with full score series but a one-element sigma series
(A sigmas = [5], B sigmas = [1]) the function does NOT return the
insufficient-data result — its sigma_diff is 4, not 0. -/
theorem equipment_comparison_not_insufficient_on_short_sigmas :
    compute_equipment_comparison [1, 2] [5] [1, 2] [1] ≠
      insufficientComparison := by
  intro h
  have hproj := congrArg EquipComparison.sigma_diff h
  have heval : (compute_equipment_comparison [1, 2] [5] [1, 2] [1]).sigma_diff
      = 4 := by
    simp only [compute_equipment_comparison,
      if_neg (by norm_num : ¬ ((([1, 2] : List ℝ)).length < 2 ∨
        (([1, 2] : List ℝ)).length < 2))]
    have hm5 : npMean [5] = 5 := by unfold npMean; norm_num
    have hm1 : npMean [1] = 1 := by unfold npMean; norm_num
    rw [hm5, hm1]
    unfold pyRound
    rw [show ((5:ℝ) - 1) * 10 ^ 3 = ((4000:ℤ) : ℝ) by norm_num,
      roundHalfEven_intCast]
    norm_num
  rw [heval] at hproj
  have : (insufficientComparison).sigma_diff = 0 := rfl
  rw [this] at hproj
  norm_num at hproj

/-! ## Crawl regression (`src/crawls.py`) -/

/-- Least-squares polynomial fit — the mathematical meaning of
`np.polyfit(xs, ys, deg)`.  Row i of the Vandermonde design matrix A is
[xᵢ^deg, …, xᵢ, 1]; the highest-degree-first coefficients solve the normal
equations (AᵀA)c = Aᵀy.  When AᵀA is invertible this is the unique
least-squares solution; `Matrix.inv` returns 0 on singular input, a rank
deficiency no claim touches.  `none` models the exception numpy raises on an
empty input or mismatched lengths (it does NOT raise merely because
deg ≥ n). -/
noncomputable def np_polyfit (xs ys : List ℝ) (deg : ℕ) : Option (List ℝ) :=
  if xs.length = 0 ∨ xs.length ≠ ys.length then none
  else
    let A : Matrix (Fin xs.length) (Fin (deg + 1)) ℝ :=
      fun i j => (xs.getD i 0) ^ (deg - (j : ℕ))
    let y : Fin xs.length → ℝ := fun i => ys.getD i 0
    some (List.ofFn ((A.transpose * A)⁻¹.mulVec (A.transpose.mulVec y)))

/-- The polynomial degree `calculate_crawl_regression` selects:
`1 if len > 1 else 0` below three points, otherwise 2 — verbatim from
`src/crawls.py`. -/
def crawlRegressionDegree (n : ℕ) : ℕ :=
  if n < 3 then (if n > 1 then 1 else 0) else 2

/-- Embedding of `calculate_crawl_regression(known_distances, known_crawls)`
(`src/crawls.py`). -/
noncomputable def calculate_crawl_regression
    (known_distances known_crawls : List ℝ) : Option (List ℝ) :=
  np_polyfit known_distances known_crawls
    (crawlRegressionDegree known_distances.length)

/-- C8 (amended): for every n ≥ 1 calibration pairs the selected degree is
min(2, n−1) and the function returns a fitted coefficient list of length
degree + 1; in particular n = 1 yields a degree-0 (constant) fitted model
rather than failing fast. -/
theorem crawl_regression_degree_min_two (dists crawls : List ℝ)
    (hlen : dists.length = crawls.length) (h1 : 1 ≤ dists.length) :
    crawlRegressionDegree dists.length = min 2 (dists.length - 1) ∧
      ∃ coeffs, calculate_crawl_regression dists crawls = some coeffs ∧
        coeffs.length = min 2 (dists.length - 1) + 1 := by
  have hdeg : crawlRegressionDegree dists.length = min 2 (dists.length - 1) := by
    unfold crawlRegressionDegree
    split_ifs <;> omega
  refine ⟨hdeg, ?_⟩
  unfold calculate_crawl_regression np_polyfit
  rw [if_neg (by push_neg; exact ⟨by omega, hlen⟩)]
  exact ⟨_, rfl, by simp [List.length_ofFn, hdeg]⟩

/-- Witness for C8 (amended) at two calibration points. -/
theorem crawl_regression_degree_min_two_witness :
    (([10, 50] : List ℝ)).length = (([20, 0] : List ℝ)).length ∧
      1 ≤ (([10, 50] : List ℝ)).length ∧
      (crawlRegressionDegree (([10, 50] : List ℝ)).length =
          min 2 ((([10, 50] : List ℝ)).length - 1) ∧
        ∃ coeffs, calculate_crawl_regression [10, 50] [20, 0] = some coeffs ∧
          coeffs.length = min 2 ((([10, 50] : List ℝ)).length - 1) + 1) :=
  ⟨rfl, by norm_num,
    crawl_regression_degree_min_two [10, 50] [20, 0] rfl (by norm_num)⟩

/-- C8 counterexample: with a single calibration point the function does NOT
fail fast — it returns a fitted model, the one-coefficient (degree-0,
constant) polynomial produced by the least-squares fit. -/
theorem crawl_regression_single_point_returns_model :
    (calculate_crawl_regression [10] [25]).isSome = true ∧
      ((calculate_crawl_regression [10] [25]).getD []).length = 1 := by
  unfold calculate_crawl_regression np_polyfit crawlRegressionDegree
  rw [if_neg (by norm_num)]
  exact ⟨rfl, by simp⟩

end Barebow
